import Mathlib

/-!
Verification of the feature-inversion module of librosa
(src/librosa/feature/inverse.py) against its specification.

The module's four public functions are shallowly embedded here.  NumPy
arrays are modelled as `Mat` (shape, dtype, and a real-valued entry map);
Python floats are modelled as real numbers, scalar parameters that are
compared exactly (such as `power`) as rationals.  The external
collaborators that the module delegates to — the mel filter-bank
constructor `filters.mel`, the non-negative least-squares solver `nnls`,
the phase reconstructor `griffinlim`, the decibel converter
`db_to_power`, and `scipy.fftpack.idct` — are not part of the source under
verification; each is modelled from the specification's collaborator
contract.  Floating-point exponentiation (`np.power`, `10 ** x`) enters
the definitions as an explicit scalar operation parameter, instantiated
with `Real.rpow` in every theorem.
-/

/-- NumPy dtypes relevant to this module: single or double precision real. -/
inductive DType where
  | float32
  | float64
deriving DecidableEq, Repr

/-- A NumPy two-dimensional array: shape, dtype and real-valued entries.
Entries outside the shape are irrelevant to every statement below. -/
structure Mat where
  rows : Nat
  cols : Nat
  dtype : DType
  entry : Nat → Nat → ℝ

/-- Python exceptions that the embedded code can surface. -/
inductive PyError where
  | zeroDivisionError
  | parameterError
  | typeError
deriving DecidableEq, Repr

/-- Elementwise `np.power(A, e, out=A)`: same shape and dtype, each entry
raised to the scalar exponent by the ambient power operation. -/
def npPowerElem (rpow : ℝ → ℝ → ℝ) (A : Mat) (e : ℝ) : Mat :=
  { rows := A.rows, cols := A.cols, dtype := A.dtype,
    entry := fun i j => rpow (A.entry i j) e }

/-- Mel filter-bank construction options forwarded verbatim to
`filters.mel` (fmin, fmax, htk, filter normalization). -/
structure MelOpts where
  fmin : ℚ
  fmax : Option ℚ
  htk : Bool
  mel_norm : Option Nat
deriving DecidableEq, Repr

/-- Default mel filter-bank options of `librosa.filters.mel`. -/
def melOptsDefault : MelOpts :=
  { fmin := 0, fmax := none, htk := false, mel_norm := some 1 }

/-- Modelled from the spec: `librosa.filters.mel` is not under src.  The
spec's collaborator contract: `(sample_rate, fft_size, mel_band_count,
numeric_type, filter_bank_options) → non-negative matrix
[mel_band_count × (fft_size//2+1)]`, with the requested numeric type.
Any constructor satisfying the contract is admitted. -/
structure MelBasisCtor where
  build : ℚ → Nat → Nat → DType → MelOpts → Mat
  rows_eq : ∀ sr n_fft n_mels dt opts, (build sr n_fft n_mels dt opts).rows = n_mels
  cols_eq : ∀ sr n_fft n_mels dt opts, (build sr n_fft n_mels dt opts).cols = n_fft / 2 + 1
  dtype_eq : ∀ sr n_fft n_mels dt opts, (build sr n_fft n_mels dt opts).dtype = dt
  entry_nonneg : ∀ sr n_fft n_mels dt opts i j, 0 ≤ (build sr n_fft n_mels dt opts).entry i j

/-- Modelled from the spec: `librosa.util.nnls` is not under src.  The
spec's collaborator contract: a solver taking a design matrix and a
target matrix and returning a non-negative solution matrix of shape
(design-matrix columns × target columns); it never returns negative
entries, and the numeric type is propagated from the input feature
matrix.  Any solver satisfying the contract is admitted. -/
structure NNLS where
  solve : Mat → Mat → Mat
  rows_eq : ∀ A B, (solve A B).rows = A.cols
  cols_eq : ∀ A B, (solve A B).cols = B.cols
  dtype_eq : ∀ A B, (solve A B).dtype = B.dtype
  entry_nonneg : ∀ A B i j, 0 ≤ (solve A B).entry i j

/-- Embedding of `mel_to_stft` (src/librosa/feature/inverse.py, lines
80-89): construct a mel basis with `n_mels = M.shape[0]` and
`dtype = M.dtype`, solve the non-negative least squares problem, and
apply the inverse exponent in place.  The Python expression `1. / power`
raises `ZeroDivisionError` when `power` is exactly 0; otherwise the
result is the elementwise power `inverse ** (1/power)`. -/
def mel_to_stft (rpow : ℝ → ℝ → ℝ) (mb : MelBasisCtor) (nn : NNLS)
    (M : Mat) (sr : ℚ) (n_fft : Nat) (power : ℚ) (opts : MelOpts) :
    Except PyError Mat :=
  let mel_basis := mb.build sr n_fft M.rows M.dtype opts
  let inverse := nn.solve mel_basis M
  if power = 0 then Except.error PyError.zeroDivisionError
  else Except.ok (npPowerElem rpow inverse ((1 / power : ℚ) : ℝ))

/-- A trivial mel-basis constructor satisfying the contract, used to
instantiate universally quantified statements at concrete inputs. -/
def constMelBasis : MelBasisCtor where
  build := fun _ n_fft n_mels dt _ =>
    { rows := n_mels, cols := n_fft / 2 + 1, dtype := dt, entry := fun _ _ => 0 }
  rows_eq := fun _ _ _ _ _ => rfl
  cols_eq := fun _ _ _ _ _ => rfl
  dtype_eq := fun _ _ _ _ _ => rfl
  entry_nonneg := fun _ _ _ _ _ _ _ => le_refl 0

/-- A trivial non-negative solver satisfying the contract, used to
instantiate universally quantified statements at concrete inputs. -/
def zeroNNLS : NNLS where
  solve := fun A B => { rows := A.cols, cols := B.cols, dtype := B.dtype, entry := fun _ _ => 0 }
  rows_eq := fun _ _ => rfl
  cols_eq := fun _ _ => rfl
  dtype_eq := fun _ _ => rfl
  entry_nonneg := fun _ _ _ _ => le_refl 0

/-- A concrete 4 × 3 double-precision mel spectrogram with zero entries. -/
def wMel43 : Mat :=
  { rows := 4, cols := 3, dtype := DType.float64, entry := fun _ _ => 0 }

/-- C1 counterexample. The claim states that `mel_to_stft` with
`power = 0` fails with an InvalidParameter error.  At a concrete
non-negative input the call fails instead with `ZeroDivisionError`,
raised by the Python expression `1. / power`; the two error classes
differ. -/
theorem mel_to_stft_power_zero_not_parameter_error :
    mel_to_stft Real.rpow constMelBasis zeroNNLS wMel43 22050 2048 0 melOptsDefault
      = Except.error PyError.zeroDivisionError
    ∧ PyError.zeroDivisionError ≠ PyError.parameterError := by
  refine ⟨rfl, by decide⟩

/-- C1 amended. For every mel basis constructor, solver, input and
parameters, `mel_to_stft` with `power` exactly 0 fails — with a
`ZeroDivisionError` from evaluating the inverse exponent `1. / power`,
not with an InvalidParameter error — so no `inf`/`NaN` result is ever
produced. -/
theorem mel_to_stft_power_zero_zero_division (mb : MelBasisCtor) (nn : NNLS)
    (M : Mat) (sr : ℚ) (n_fft : Nat) (opts : MelOpts) :
    mel_to_stft Real.rpow mb nn M sr n_fft 0 opts
      = Except.error PyError.zeroDivisionError := rfl

/-- Keyword parameters of `mel_to_audio` (src/librosa/feature/inverse.py,
lines 92-94), one field per keyword, including the mel filter-bank
options forwarded through `**kwargs`. -/
structure MelAudioKwargs where
  sr : ℚ
  n_fft : Nat
  hop_length : Option Nat
  win_length : Option Nat
  window : String
  center : Bool
  pad_mode : String
  power : ℚ
  n_iter : Nat
  length : Option Nat
  dtype : DType
  opts : MelOpts

/-- The signature defaults of `mel_to_audio`: `sr=22050, n_fft=2048,
hop_length=512, win_length=None, window='hann', center=True,
pad_mode='reflect', power=2.0, n_iter=32, length=None,
dtype=np.float32`.  A caller who does not specify a keyword calls the
function with this value for it. -/
def melAudioDefaults : MelAudioKwargs where
  sr := 22050
  n_fft := 2048
  hop_length := some 512
  win_length := none
  window := "hann"
  center := true
  pad_mode := "reflect"
  power := 2
  n_iter := 32
  length := none
  dtype := DType.float32
  opts := melOptsDefault

/-- The argument record passed to the `griffinlim` collaborator by
`mel_to_audio` (src/librosa/feature/inverse.py, lines 162-164). -/
structure GLArgs where
  S : Mat
  n_iter : Nat
  hop_length : Option Nat
  win_length : Option Nat
  window : String
  center : Bool
  dtype : DType
  length : Option Nat
  pad_mode : String

/-- The arguments `mel_to_audio` threads to `griffinlim`: the magnitude
spectrogram from `mel_to_stft` together with every keyword forwarded
verbatim (src/librosa/feature/inverse.py, lines 160-164). -/
def mel_to_audio_glargs (rpow : ℝ → ℝ → ℝ) (mb : MelBasisCtor) (nn : NNLS)
    (M : Mat) (kw : MelAudioKwargs) : Except PyError GLArgs :=
  (mel_to_stft rpow mb nn M kw.sr kw.n_fft kw.power kw.opts).map (fun stft =>
    { S := stft, n_iter := kw.n_iter, hop_length := kw.hop_length,
      win_length := kw.win_length, window := kw.window, center := kw.center,
      dtype := kw.dtype, length := kw.length, pad_mode := kw.pad_mode })

/-- Embedding of `mel_to_audio`: compute the magnitude spectrogram with
`mel_to_stft`, then delegate to the `griffinlim` collaborator, modelled
from the spec as an arbitrary function of the threaded arguments since
`librosa.core.spectrum.griffinlim` is not under src. -/
def mel_to_audio (gl : GLArgs → List ℝ) (rpow : ℝ → ℝ → ℝ)
    (mb : MelBasisCtor) (nn : NNLS) (M : Mat) (kw : MelAudioKwargs) :
    Except PyError (List ℝ) :=
  (mel_to_audio_glargs rpow mb nn M kw).map gl

/-- C2 evaluation. With the hop length left unspecified (so equal to the
signature default 512) and `n_fft = 1024`, the hop length threaded to
`griffinlim` is 512, whereas one quarter of the FFT size is 256: the
fixed default, not `n_fft // 4`, is what the code passes down. -/
theorem mel_to_audio_default_hop_is_512_at_1024 :
    (mel_to_audio_glargs Real.rpow constMelBasis zeroNNLS wMel43
        { melAudioDefaults with n_fft := 1024 }).map GLArgs.hop_length
      = Except.ok (some 512)
    ∧ (1024 / 4 : Nat) = 256
    ∧ (some 512 : Option Nat) ≠ some 256 := by
  refine ⟨rfl, rfl, by decide⟩

/-- Reference definition following the spec's words (section 4.1
Algorithm): construct the mel basis from the sample rate, FFT size,
`M`'s band count and `M`'s numeric type; delegate to the non-negative
least-squares collaborator on the basis and `M`; raise the solution
elementwise to the inverse exponent `1/power`. -/
def melToStftSpec (rpow : ℝ → ℝ → ℝ) (mb : MelBasisCtor) (nn : NNLS)
    (M : Mat) (sr : ℚ) (n_fft : Nat) (power : ℚ) (opts : MelOpts) : Mat :=
  npPowerElem rpow (nn.solve (mb.build sr n_fft M.rows M.dtype opts) M)
    ((1 / power : ℚ) : ℝ)

/-- C3. For every mel basis constructor and solver satisfying the
collaborator contracts, every input `M` and every non-zero `power`,
a successful `mel_to_stft` call with FFT size `n_fft` returns a matrix
of shape `(n_fft / 2 + 1) × M.cols`. -/
theorem mel_to_stft_shape (mb : MelBasisCtor) (nn : NNLS) (M : Mat)
    (sr : ℚ) (n_fft : Nat) (power : ℚ) (opts : MelOpts)
    (hp : power ≠ 0) (S : Mat)
    (h : mel_to_stft Real.rpow mb nn M sr n_fft power opts = Except.ok S) :
    S.rows = n_fft / 2 + 1 ∧ S.cols = M.cols := by
  simp only [mel_to_stft, if_neg hp, Except.ok.injEq] at h
  subst h
  exact ⟨(nn.rows_eq _ _).trans (mb.cols_eq _ _ _ _ _), nn.cols_eq _ _⟩

/-- C3 witness value: the concrete result of `mel_to_stft` on `wMel43`
with the default `n_fft = 2048` and `power = 2`, as a function of the
scalar power operation. -/
def wS3 (rpow : ℝ → ℝ → ℝ) : Mat :=
  npPowerElem rpow
    (zeroNNLS.solve (constMelBasis.build 22050 2048 wMel43.rows wMel43.dtype melOptsDefault) wMel43)
    ((1 / (2 : ℚ) : ℚ) : ℝ)

/-- C3 witness: at the concrete input `wMel43` with `n_fft = 2048` and
`power = 2`, the hypotheses hold and the returned matrix has shape
`1025 × 3`. -/
theorem mel_to_stft_shape_witness :
    (2 : ℚ) ≠ 0 ∧ ((wS3 Real.rpow).rows = 2048 / 2 + 1 ∧ (wS3 Real.rpow).cols = wMel43.cols) :=
  ⟨by norm_num,
   mel_to_stft_shape constMelBasis zeroNNLS wMel43 22050 2048 2 melOptsDefault
     (by norm_num) (wS3 Real.rpow) rfl⟩

/-- C6. `mel_to_stft` realizes the spec's composition: the constructed
basis has row count `M.rows`, column count `n_fft / 2 + 1` and numeric
type `M.dtype`, and for non-zero `power` the result is exactly the
NNLS solution on that basis raised elementwise to `1/power`. -/
theorem mel_to_stft_algorithm (mb : MelBasisCtor) (nn : NNLS) (M : Mat)
    (sr : ℚ) (n_fft : Nat) (power : ℚ) (opts : MelOpts) (hp : power ≠ 0) :
    (mb.build sr n_fft M.rows M.dtype opts).rows = M.rows
    ∧ (mb.build sr n_fft M.rows M.dtype opts).cols = n_fft / 2 + 1
    ∧ (mb.build sr n_fft M.rows M.dtype opts).dtype = M.dtype
    ∧ mel_to_stft Real.rpow mb nn M sr n_fft power opts
        = Except.ok (melToStftSpec Real.rpow mb nn M sr n_fft power opts) := by
  refine ⟨mb.rows_eq _ _ _ _ _, mb.cols_eq _ _ _ _ _, mb.dtype_eq _ _ _ _ _, ?_⟩
  simp [mel_to_stft, melToStftSpec, if_neg hp]

/-- C6 witness: the composition equality instantiated at the concrete
input `wMel43` with the trivial contract-satisfying collaborators and
`power = 2`. -/
theorem mel_to_stft_algorithm_witness :
    (2 : ℚ) ≠ 0
    ∧ ((constMelBasis.build 22050 2048 wMel43.rows wMel43.dtype melOptsDefault).rows = wMel43.rows
      ∧ (constMelBasis.build 22050 2048 wMel43.rows wMel43.dtype melOptsDefault).cols = 2048 / 2 + 1
      ∧ (constMelBasis.build 22050 2048 wMel43.rows wMel43.dtype melOptsDefault).dtype = wMel43.dtype
      ∧ mel_to_stft Real.rpow constMelBasis zeroNNLS wMel43 22050 2048 2 melOptsDefault
          = Except.ok (melToStftSpec Real.rpow constMelBasis zeroNNLS wMel43 22050 2048 2 melOptsDefault)) :=
  ⟨by norm_num,
   mel_to_stft_algorithm constMelBasis zeroNNLS wMel43 22050 2048 2 melOptsDefault (by norm_num)⟩

/-- C8. For every contract-satisfying basis constructor and solver (the
solver never returns negative entries), every non-negative input `M` and
every `power > 0`, every entry of the matrix returned by `mel_to_stft`
is greater than or equal to 0. -/
theorem mel_to_stft_entry_nonneg (mb : MelBasisCtor) (nn : NNLS) (M : Mat)
    (sr : ℚ) (n_fft : Nat) (power : ℚ) (opts : MelOpts)
    (hM : ∀ i j, 0 ≤ M.entry i j) (hp : 0 < power) (S : Mat)
    (h : mel_to_stft Real.rpow mb nn M sr n_fft power opts = Except.ok S) :
    ∀ i j, 0 ≤ S.entry i j := by
  simp only [mel_to_stft, if_neg (ne_of_gt hp), Except.ok.injEq] at h
  subst h
  intro i j
  exact Real.rpow_nonneg (nn.entry_nonneg _ _ i j) _

/-- C8 witness: at the concrete non-negative input `wMel43` with
`power = 2`, the hypotheses hold and the entry at (0, 0) of the result
is non-negative. -/
theorem mel_to_stft_entry_nonneg_witness :
    (∀ i j, 0 ≤ wMel43.entry i j) ∧ (0 : ℚ) < 2 ∧ 0 ≤ (wS3 Real.rpow).entry 0 0 :=
  ⟨fun _ _ => le_refl 0, by norm_num,
   mel_to_stft_entry_nonneg constMelBasis zeroNNLS wMel43 22050 2048 2 melOptsDefault
     (fun _ _ => le_refl 0) (by norm_num) (wS3 Real.rpow) rfl 0 0⟩

/-- DCT normalization mode: `None` or `'ortho'`. -/
inductive DctNorm where
  | noNorm
  | ortho
deriving DecidableEq, Repr

/-- Reference power for the inverse decibel conversion: either a fixed
scalar or a callable evaluated on the dB-domain array. -/
inductive Ref where
  | fixed (r : ℝ)
  | derived (f : Mat → ℝ)

/-- The scalar reference actually used by the decibel conversion for a
given dB-domain array. -/
def refValue (ref : Ref) (A : Mat) : ℝ :=
  match ref with
  | Ref.fixed r => r
  | Ref.derived f => f A

/-- The entry values of an inverse DCT, as a function of type,
normalization, output coefficient count, input matrix and position.
The spec leaves the cosine-transform values to the collaborator, so the
whole development is parameterized over them. -/
def IdctCore : Type :=
  Nat → DctNorm → Nat → Mat → Nat → Nat → ℝ

/-- Modelled from the spec: `scipy.fftpack.idct` is external to the
repository.  Per the spec's collaborator contract it applies the
standard type-1/2/3 inverse cosine transform along the coefficient
axis, resampling or padding to exactly `n` output coefficients, and
normalization is valid only for types 2 and 3: requesting it with
type 1 is an invalid-parameter condition. -/
def idct (core : IdctCore) (x : Mat) (ty : Nat) (nrm : DctNorm) (n : Nat) :
    Except PyError Mat :=
  if ty = 1 ∧ nrm = DctNorm.ortho then Except.error PyError.parameterError
  else Except.ok { rows := n, cols := x.cols, dtype := x.dtype,
                   entry := fun i j => core ty nrm n x i j }

/-- Modelled from the spec: `librosa.core.spectrum.db_to_power` is not
under src.  Per the spec it converts elementwise to linear power as a
function `dbp` of the reference and the dB value — instantiated in every
theorem below with `fun r x => r * 10 ** (x / 10)`, the spec's formula —
where the reference is a fixed scalar or the result of invoking the
supplied callable on the dB-domain array. -/
def db_to_power (dbp : ℝ → ℝ → ℝ) (S_db : Mat) (ref : Ref) : Mat :=
  { rows := S_db.rows, cols := S_db.cols, dtype := S_db.dtype,
    entry := fun i j => dbp (refValue ref S_db) (S_db.entry i j) }

/-- Embedding of `mfcc_to_mel` (src/librosa/feature/inverse.py, lines
213-215): inverse DCT along the coefficient axis with `n = n_mels`,
then `db_to_power` with the given reference. -/
def mfcc_to_mel (core : IdctCore) (dbp : ℝ → ℝ → ℝ) (mfcc : Mat)
    (n_mels : Nat) (dct_type : Nat) (nrm : DctNorm) (ref : Ref) :
    Except PyError Mat :=
  (idct core mfcc dct_type nrm n_mels).map (fun logmel => db_to_power dbp logmel ref)

/-- C4. For every inverse-DCT core, every MFCC input, every `n_mels` and
every reference, `mfcc_to_mel` with `dct_type = 1` and `norm = 'ortho'`
fails with the invalid-parameter error raised by the inverse-DCT
collaborator and propagated unchanged. -/
theorem mfcc_to_mel_type1_ortho_rejected (core : IdctCore) (mfcc : Mat)
    (n_mels : Nat) (ref : Ref) :
    mfcc_to_mel core (fun r x => r * Real.rpow 10 (x / 10)) mfcc n_mels 1
      DctNorm.ortho ref = Except.error PyError.parameterError := rfl

/-- Reference definition following the spec's words (section 4.3
Algorithm): apply the inverse DCT of the specified type along the
coefficient axis with exactly `n_mels` output coefficients, then convert
elementwise to linear power from the reference and the log-power value,
the reference being a fixed scalar or the supplied callable evaluated on
the log-power array. -/
def mfccToMelSpec (core : IdctCore) (dbp : ℝ → ℝ → ℝ) (mfcc : Mat)
    (n_mels : Nat) (dct_type : Nat) (nrm : DctNorm) (ref : Ref) :
    Except PyError Mat :=
  match idct core mfcc dct_type nrm n_mels with
  | Except.error e => Except.error e
  | Except.ok logmel =>
      Except.ok { rows := logmel.rows, cols := logmel.cols, dtype := logmel.dtype,
                  entry := fun i j => dbp (refValue ref logmel) (logmel.entry i j) }

/-- C7. `mfcc_to_mel`, with the conversion scalar instantiated to the
spec's `ref * 10 ** (logmel / 10)`, equals the spec's two-step reference
definition, and every successful result has shape `n_mels × mfcc.cols`:
the frame count of the input is preserved. -/
theorem mfcc_to_mel_two_step (core : IdctCore) (mfcc : Mat) (n_mels : Nat)
    (dct_type : Nat) (nrm : DctNorm) (ref : Ref) :
    mfcc_to_mel core (fun r x => r * Real.rpow 10 (x / 10)) mfcc n_mels dct_type nrm ref
      = mfccToMelSpec core (fun r x => r * Real.rpow 10 (x / 10)) mfcc n_mels dct_type nrm ref
    ∧ ∀ M, mfcc_to_mel core (fun r x => r * Real.rpow 10 (x / 10)) mfcc n_mels dct_type nrm ref
        = Except.ok M → M.rows = n_mels ∧ M.cols = mfcc.cols := by
  constructor
  · by_cases h : dct_type = 1 ∧ nrm = DctNorm.ortho
    · simp [mfcc_to_mel, mfccToMelSpec, idct, h, Except.map]
    · simp [mfcc_to_mel, mfccToMelSpec, idct, h, db_to_power, Except.map]
  · intro M hM
    by_cases h : dct_type = 1 ∧ nrm = DctNorm.ortho
    · simp [mfcc_to_mel, idct, h, Except.map] at hM
    · simp only [mfcc_to_mel, idct, if_neg h, Except.map, Except.ok.injEq] at hM
      subst hM
      exact ⟨rfl, rfl⟩

/-- A concrete 2 × 3 double-precision MFCC matrix with zero entries. -/
def wMfcc23 : Mat :=
  { rows := 2, cols := 3, dtype := DType.float64, entry := fun _ _ => 0 }

/-- A concrete inverse-DCT core whose values are all zero. -/
def zeroIdctCore : IdctCore :=
  fun _ _ _ _ _ _ => 0

/-- C7 witness value: the concrete mel power spectrum recovered from
`wMfcc23` with `n_mels = 5`, type-2 DCT, orthonormal basis and unit
reference, as a function of the conversion scalar. -/
def wMelOut (dbp : ℝ → ℝ → ℝ) : Mat :=
  db_to_power dbp
    { rows := 5, cols := wMfcc23.cols, dtype := wMfcc23.dtype,
      entry := fun i j => zeroIdctCore 2 DctNorm.ortho 5 wMfcc23 i j }
    (Ref.fixed 1)

/-- C7 witness: at the concrete input `wMfcc23` with `n_mels = 5`, the
two definitions agree and the successful result has shape `5 × 3`. -/
theorem mfcc_to_mel_two_step_witness :
    (mfcc_to_mel zeroIdctCore (fun r x => r * Real.rpow 10 (x / 10)) wMfcc23 5 2
        DctNorm.ortho (Ref.fixed 1)
      = mfccToMelSpec zeroIdctCore (fun r x => r * Real.rpow 10 (x / 10)) wMfcc23 5 2
        DctNorm.ortho (Ref.fixed 1))
    ∧ ((wMelOut (fun r x => r * Real.rpow 10 (x / 10))).rows = 5
      ∧ (wMelOut (fun r x => r * Real.rpow 10 (x / 10))).cols = wMfcc23.cols) :=
  ⟨(mfcc_to_mel_two_step zeroIdctCore wMfcc23 5 2 DctNorm.ortho (Ref.fixed 1)).1,
   (mfcc_to_mel_two_step zeroIdctCore wMfcc23 5 2 DctNorm.ortho (Ref.fixed 1)).2
     (wMelOut (fun r x => r * Real.rpow 10 (x / 10))) rfl⟩

/-- C10. For every inverse-DCT core, every MFCC input and every fixed
scalar reference `r > 0`, every entry of a successful `mfcc_to_mel`
result is strictly positive: the conversion computes `r * 10 ** (x / 10)`,
positive for every real `x`. -/
theorem mfcc_to_mel_entry_pos (core : IdctCore) (mfcc : Mat) (n_mels : Nat)
    (dct_type : Nat) (nrm : DctNorm) (r : ℝ) (hr : 0 < r) (M : Mat)
    (h : mfcc_to_mel core (fun r x => r * Real.rpow 10 (x / 10)) mfcc n_mels
      dct_type nrm (Ref.fixed r) = Except.ok M) :
    ∀ i j, 0 < M.entry i j := by
  by_cases hc : dct_type = 1 ∧ nrm = DctNorm.ortho
  · simp [mfcc_to_mel, idct, hc, Except.map] at h
  · simp only [mfcc_to_mel, idct, if_neg hc, Except.map, Except.ok.injEq] at h
    subst h
    intro i j
    exact mul_pos hr (Real.rpow_pos_of_pos (by norm_num) _)

/-- C10 witness: at the concrete input `wMfcc23` with unit reference,
the hypotheses hold and the entry at (0, 0) of the result is strictly
positive. -/
theorem mfcc_to_mel_entry_pos_witness :
    (0 : ℝ) < 1 ∧ 0 < (wMelOut (fun r x => r * Real.rpow 10 (x / 10))).entry 0 0 :=
  ⟨by norm_num,
   mfcc_to_mel_entry_pos zeroIdctCore wMfcc23 5 2 DctNorm.ortho 1 (by norm_num)
     (wMelOut (fun r x => r * Real.rpow 10 (x / 10))) rfl 0 0⟩

/-- Embedding of `mfcc_to_audio` (src/librosa/feature/inverse.py, lines
264-266): convert the MFCCs to a mel power spectrum with `mfcc_to_mel`
using the cepstral parameters, then hand the result and every remaining
keyword to `mel_to_audio`. -/
def mfcc_to_audio (gl : GLArgs → List ℝ) (core : IdctCore)
    (dbp rpow : ℝ → ℝ → ℝ) (mb : MelBasisCtor) (nn : NNLS) (mfcc : Mat)
    (n_mels dct_type : Nat) (nrm : DctNorm) (ref : Ref)
    (kw : MelAudioKwargs) : Except PyError (List ℝ) :=
  (mfcc_to_mel core dbp mfcc n_mels dct_type nrm ref).bind
    (fun mel_spec => mel_to_audio gl rpow mb nn mel_spec kw)

/-- C5. Whenever the cepstral inversion succeeds with mel spectrum `m`,
`mfcc_to_audio` on the full keyword set equals `mel_to_audio` applied to
`m` and the remaining keywords: the composition adds no logic beyond
parameter forwarding, the cepstral parameters routing to `mfcc_to_mel`
and all remaining keywords routing to `mel_to_audio` unchanged. -/
theorem mfcc_to_audio_composition (gl : GLArgs → List ℝ) (core : IdctCore)
    (rpow : ℝ → ℝ → ℝ) (mb : MelBasisCtor) (nn : NNLS) (mfcc : Mat)
    (n_mels dct_type : Nat) (nrm : DctNorm) (ref : Ref) (kw : MelAudioKwargs)
    (m : Mat)
    (h : mfcc_to_mel core (fun r x => r * Real.rpow 10 (x / 10)) mfcc n_mels
      dct_type nrm ref = Except.ok m) :
    mfcc_to_audio gl core (fun r x => r * Real.rpow 10 (x / 10)) rpow mb nn
        mfcc n_mels dct_type nrm ref kw
      = mel_to_audio gl rpow mb nn m kw := by
  simp only [mfcc_to_audio]
  rw [h]
  rfl

/-- A griffinlim instance returning silence, used only to instantiate
universally quantified statements at concrete inputs. -/
def glNil : GLArgs → List ℝ :=
  fun _ => []

/-- C5 witness: at the concrete input `wMfcc23` with the default keyword
set, the cepstral inversion succeeds with `wMelOut` and the composition
equality holds there. -/
theorem mfcc_to_audio_composition_witness :
    (mfcc_to_mel zeroIdctCore (fun r x => r * Real.rpow 10 (x / 10)) wMfcc23 5 2
        DctNorm.ortho (Ref.fixed 1)
      = Except.ok (wMelOut (fun r x => r * Real.rpow 10 (x / 10))))
    ∧ mfcc_to_audio glNil zeroIdctCore (fun r x => r * Real.rpow 10 (x / 10))
        Real.rpow constMelBasis zeroNNLS wMfcc23 5 2 DctNorm.ortho (Ref.fixed 1)
        melAudioDefaults
      = mel_to_audio glNil Real.rpow constMelBasis zeroNNLS
        (wMelOut (fun r x => r * Real.rpow 10 (x / 10))) melAudioDefaults :=
  ⟨rfl,
   mfcc_to_audio_composition glNil zeroIdctCore Real.rpow constMelBasis zeroNNLS
     wMfcc23 5 2 DctNorm.ortho (Ref.fixed 1) melAudioDefaults
     (wMelOut (fun r x => r * Real.rpow 10 (x / 10))) rfl⟩

/-- A heap buffer: a NumPy array or a time-domain signal. -/
inductive Buf where
  | mat (A : Mat)
  | aud (y : List ℝ)

/-- A heap of allocated buffers: contents by address, next fresh
address.  Caller-supplied inputs live at addresses below `next`. -/
structure Store where
  mem : Nat → Option Buf
  next : Nat

/-- Read the buffer at an address. -/
def readAt (st : Store) (r : Nat) : Option Buf :=
  st.mem r

/-- Allocate a fresh buffer, returning the new heap and its address. -/
def alloc (st : Store) (b : Buf) : Store × Nat :=
  ({ mem := fun q => if q = st.next then some b else st.mem q, next := st.next + 1 },
   st.next)

/-- Overwrite the buffer at an address in place. -/
def writeAt (st : Store) (r : Nat) (b : Buf) : Store :=
  { mem := fun q => if q = r then some b else st.mem q, next := st.next }

/-- Heap-level embedding of `mel_to_stft`: read `M` at its address,
allocate the freshly constructed mel basis, allocate the solver's output
buffer, and apply the inverse exponent in place into that buffer
(`out=inverse`), whose address is returned. -/
def mel_to_stft_st (rpow : ℝ → ℝ → ℝ) (mb : MelBasisCtor) (nn : NNLS)
    (st : Store) (rM : Nat) (sr : ℚ) (n_fft : Nat) (power : ℚ)
    (opts : MelOpts) : Store × Except PyError Nat :=
  match readAt st rM with
  | some (Buf.mat M) =>
    let p1 := alloc st (Buf.mat (mb.build sr n_fft M.rows M.dtype opts))
    let p2 := alloc p1.1 (Buf.mat (nn.solve (mb.build sr n_fft M.rows M.dtype opts) M))
    if power = 0 then (p2.1, Except.error PyError.zeroDivisionError)
    else
      (writeAt p2.1 p2.2
        (Buf.mat (npPowerElem rpow (nn.solve (mb.build sr n_fft M.rows M.dtype opts) M)
          ((1 / power : ℚ) : ℝ))),
       Except.ok p2.2)
  | _ => (st, Except.error PyError.typeError)

/-- Heap-level embedding of `mfcc_to_mel`: read the MFCCs at their
address; on success of the inverse DCT allocate its fresh output and the
fresh linear-power output of `db_to_power`, returning the latter's
address.  No pre-existing buffer is written. -/
def mfcc_to_mel_st (core : IdctCore) (dbp : ℝ → ℝ → ℝ) (st : Store)
    (rC : Nat) (n_mels dct_type : Nat) (nrm : DctNorm) (ref : Ref) :
    Store × Except PyError Nat :=
  match readAt st rC with
  | some (Buf.mat mfcc) =>
    match idct core mfcc dct_type nrm n_mels with
    | Except.error e => (st, Except.error e)
    | Except.ok logmel =>
      let p1 := alloc st (Buf.mat logmel)
      let p2 := alloc p1.1 (Buf.mat (db_to_power dbp logmel ref))
      (p2.1, Except.ok p2.2)
  | _ => (st, Except.error PyError.typeError)

/-- The griffinlim call step of the heap-level `mel_to_audio`: read the
magnitude spectrogram at its address and allocate the fresh time-domain
signal produced by the collaborator on the threaded arguments. -/
def glCall (gl : GLArgs → List ℝ) (kw : MelAudioKwargs) (st : Store)
    (rS : Nat) : Store × Except PyError Nat :=
  match readAt st rS with
  | some (Buf.mat stft) =>
    let q := alloc st (Buf.aud (gl
      { S := stft, n_iter := kw.n_iter, hop_length := kw.hop_length,
        win_length := kw.win_length, window := kw.window, center := kw.center,
        dtype := kw.dtype, length := kw.length, pad_mode := kw.pad_mode }))
    (q.1, Except.ok q.2)
  | _ => (st, Except.error PyError.typeError)

/-- Heap-level embedding of `mel_to_audio`: run `mel_to_stft` on the
heap, then the griffinlim call step on its result. -/
def mel_to_audio_st (gl : GLArgs → List ℝ) (rpow : ℝ → ℝ → ℝ)
    (mb : MelBasisCtor) (nn : NNLS) (st : Store) (rM : Nat)
    (kw : MelAudioKwargs) : Store × Except PyError Nat :=
  match mel_to_stft_st rpow mb nn st rM kw.sr kw.n_fft kw.power kw.opts with
  | (st1, Except.error e) => (st1, Except.error e)
  | (st1, Except.ok rS) => glCall gl kw st1 rS

/-- Heap-level embedding of `mfcc_to_audio`: run `mfcc_to_mel` on the
heap, then `mel_to_audio` on its resulting address. -/
def mfcc_to_audio_st (gl : GLArgs → List ℝ) (core : IdctCore)
    (dbp rpow : ℝ → ℝ → ℝ) (mb : MelBasisCtor) (nn : NNLS) (st : Store)
    (rC : Nat) (n_mels dct_type : Nat) (nrm : DctNorm) (ref : Ref)
    (kw : MelAudioKwargs) : Store × Except PyError Nat :=
  match mfcc_to_mel_st core dbp st rC n_mels dct_type nrm ref with
  | (st1, Except.error e) => (st1, Except.error e)
  | (st1, Except.ok rMel) => mel_to_audio_st gl rpow mb nn st1 rMel kw

/-- `mel_to_stft_st` preserves every previously allocated buffer. -/
theorem mel_to_stft_st_preserves (rpow : ℝ → ℝ → ℝ) (mb : MelBasisCtor)
    (nn : NNLS) (st : Store) (rM : Nat) (sr : ℚ) (n_fft : Nat) (power : ℚ)
    (opts : MelOpts) (r : Nat) (hr : r < st.next) :
    readAt (mel_to_stft_st rpow mb nn st rM sr n_fft power opts).1 r
      = readAt st r := by
  have h1 : ¬ (r = st.next) := by omega
  have h2 : ¬ (r = st.next + 1) := by omega
  cases hM : readAt st rM with
  | none => simp [mel_to_stft_st, hM]
  | some b =>
    have hM2 : st.mem rM = some b := hM
    cases b with
    | aud y => simp [mel_to_stft_st, hM, hM2]
    | mat M =>
      by_cases hp : power = 0
      · simp [mel_to_stft_st, hM, hM2, hp, alloc, readAt, h1, h2]
      · simp [mel_to_stft_st, hM, hM2, hp, alloc, writeAt, readAt, h1, h2]

/-- `mel_to_stft_st` never decreases the allocation frontier. -/
theorem mel_to_stft_st_next_mono (rpow : ℝ → ℝ → ℝ) (mb : MelBasisCtor)
    (nn : NNLS) (st : Store) (rM : Nat) (sr : ℚ) (n_fft : Nat) (power : ℚ)
    (opts : MelOpts) :
    st.next ≤ (mel_to_stft_st rpow mb nn st rM sr n_fft power opts).1.next := by
  cases hM : readAt st rM with
  | none => simp [mel_to_stft_st, hM]
  | some b =>
    have hM2 : st.mem rM = some b := hM
    cases b with
    | aud y => simp [mel_to_stft_st, hM, hM2]
    | mat M =>
      by_cases hp : power = 0
      · simp [mel_to_stft_st, hM, hM2, hp, alloc]
        omega
      · simp [mel_to_stft_st, hM, hM2, hp, alloc, writeAt]
        omega

/-- On success, `mel_to_stft_st` returns a fresh address: the in-place
exponentiation target was allocated by the call itself. -/
theorem mel_to_stft_st_fresh (rpow : ℝ → ℝ → ℝ) (mb : MelBasisCtor)
    (nn : NNLS) (st : Store) (rM : Nat) (sr : ℚ) (n_fft : Nat) (power : ℚ)
    (opts : MelOpts) (rS : Nat)
    (h : (mel_to_stft_st rpow mb nn st rM sr n_fft power opts).2 = Except.ok rS) :
    st.next ≤ rS := by
  cases hM : readAt st rM with
  | none => simp [mel_to_stft_st, hM] at h
  | some b =>
    have hM2 : st.mem rM = some b := hM
    cases b with
    | aud y => simp [mel_to_stft_st, hM, hM2] at h
    | mat M =>
      by_cases hp : power = 0
      · simp [mel_to_stft_st, hM, hM2, hp] at h
      · simp only [mel_to_stft_st, hM, hM2, if_neg hp, Except.ok.injEq] at h
        subst h
        simp [alloc]

/-- `mfcc_to_mel_st` preserves every previously allocated buffer. -/
theorem mfcc_to_mel_st_preserves (core : IdctCore) (dbp : ℝ → ℝ → ℝ)
    (st : Store) (rC : Nat) (n_mels dct_type : Nat) (nrm : DctNorm)
    (ref : Ref) (r : Nat) (hr : r < st.next) :
    readAt (mfcc_to_mel_st core dbp st rC n_mels dct_type nrm ref).1 r
      = readAt st r := by
  have h1 : ¬ (r = st.next) := by omega
  have h2 : ¬ (r = st.next + 1) := by omega
  cases hM : readAt st rC with
  | none => simp [mfcc_to_mel_st, hM]
  | some b =>
    have hM2 : st.mem rC = some b := hM
    cases b with
    | aud y => simp [mfcc_to_mel_st, hM, hM2]
    | mat mfcc =>
      cases hI : idct core mfcc dct_type nrm n_mels with
      | error e => simp [mfcc_to_mel_st, hM, hM2, hI]
      | ok logmel => simp [mfcc_to_mel_st, hM, hM2, hI, alloc, readAt, h1, h2]

/-- `mfcc_to_mel_st` never decreases the allocation frontier. -/
theorem mfcc_to_mel_st_next_mono (core : IdctCore) (dbp : ℝ → ℝ → ℝ)
    (st : Store) (rC : Nat) (n_mels dct_type : Nat) (nrm : DctNorm)
    (ref : Ref) :
    st.next ≤ (mfcc_to_mel_st core dbp st rC n_mels dct_type nrm ref).1.next := by
  cases hM : readAt st rC with
  | none => simp [mfcc_to_mel_st, hM]
  | some b =>
    have hM2 : st.mem rC = some b := hM
    cases b with
    | aud y => simp [mfcc_to_mel_st, hM, hM2]
    | mat mfcc =>
      cases hI : idct core mfcc dct_type nrm n_mels with
      | error e => simp [mfcc_to_mel_st, hM, hM2, hI]
      | ok logmel =>
        simp [mfcc_to_mel_st, hM, hM2, hI, alloc]
        omega

/-- The griffinlim call step preserves every previously allocated
buffer. -/
theorem glCall_preserves (gl : GLArgs → List ℝ) (kw : MelAudioKwargs)
    (st : Store) (rS : Nat) (r : Nat) (hr : r < st.next) :
    readAt (glCall gl kw st rS).1 r = readAt st r := by
  have h1 : ¬ (r = st.next) := by omega
  cases hS : readAt st rS with
  | none => simp [glCall, hS]
  | some b =>
    have hS2 : st.mem rS = some b := hS
    cases b with
    | aud y => simp [glCall, hS, hS2]
    | mat stft => simp [glCall, hS, hS2, alloc, readAt, h1]

/-- `mel_to_audio_st` preserves every previously allocated buffer. -/
theorem mel_to_audio_st_preserves (gl : GLArgs → List ℝ) (rpow : ℝ → ℝ → ℝ)
    (mb : MelBasisCtor) (nn : NNLS) (st : Store) (rM : Nat)
    (kw : MelAudioKwargs) (r : Nat) (hr : r < st.next) :
    readAt (mel_to_audio_st gl rpow mb nn st rM kw).1 r = readAt st r := by
  have hpres := mel_to_stft_st_preserves rpow mb nn st rM kw.sr kw.n_fft kw.power kw.opts r hr
  have hmono := mel_to_stft_st_next_mono rpow mb nn st rM kw.sr kw.n_fft kw.power kw.opts
  unfold mel_to_audio_st
  rcases hq : mel_to_stft_st rpow mb nn st rM kw.sr kw.n_fft kw.power kw.opts with ⟨st1, res⟩
  rw [hq] at hpres hmono
  cases res with
  | error e => exact hpres
  | ok rS =>
    rw [glCall_preserves gl kw st1 rS r (Nat.lt_of_lt_of_le hr hmono)]
    exact hpres

/-- `mel_to_audio_st` never decreases the allocation frontier. -/
theorem mel_to_audio_st_next_mono (gl : GLArgs → List ℝ) (rpow : ℝ → ℝ → ℝ)
    (mb : MelBasisCtor) (nn : NNLS) (st : Store) (rM : Nat)
    (kw : MelAudioKwargs) :
    st.next ≤ (mel_to_audio_st gl rpow mb nn st rM kw).1.next := by
  have hmono := mel_to_stft_st_next_mono rpow mb nn st rM kw.sr kw.n_fft kw.power kw.opts
  unfold mel_to_audio_st
  rcases hq : mel_to_stft_st rpow mb nn st rM kw.sr kw.n_fft kw.power kw.opts with ⟨st1, res⟩
  rw [hq] at hmono
  cases res with
  | error e => exact hmono
  | ok rS =>
    refine Nat.le_trans hmono ?_
    cases hS : readAt st1 rS with
    | none => simp [glCall, hS]
    | some b =>
      have hS2 : st1.mem rS = some b := hS
      cases b with
      | aud y => simp [glCall, hS, hS2]
      | mat stft =>
        simp [glCall, hS, hS2, alloc]

/-- `mfcc_to_audio_st` preserves every previously allocated buffer. -/
theorem mfcc_to_audio_st_preserves (gl : GLArgs → List ℝ) (core : IdctCore)
    (dbp rpow : ℝ → ℝ → ℝ) (mb : MelBasisCtor) (nn : NNLS) (st : Store)
    (rC : Nat) (n_mels dct_type : Nat) (nrm : DctNorm) (ref : Ref)
    (kw : MelAudioKwargs) (r : Nat) (hr : r < st.next) :
    readAt (mfcc_to_audio_st gl core dbp rpow mb nn st rC n_mels dct_type nrm ref kw).1 r
      = readAt st r := by
  have hpres := mfcc_to_mel_st_preserves core dbp st rC n_mels dct_type nrm ref r hr
  have hmono := mfcc_to_mel_st_next_mono core dbp st rC n_mels dct_type nrm ref
  unfold mfcc_to_audio_st
  rcases hq : mfcc_to_mel_st core dbp st rC n_mels dct_type nrm ref with ⟨st1, res⟩
  rw [hq] at hpres hmono
  cases res with
  | error e => exact hpres
  | ok rMel =>
    rw [mel_to_audio_st_preserves gl rpow mb nn st1 rMel kw r (Nat.lt_of_lt_of_le hr hmono)]
    exact hpres

/-- C9. Every public function of the module is pure over its inputs: on
the heap-level embeddings, every buffer allocated before the call —
including the caller's input arrays — reads back unchanged afterwards,
and the one in-place mutation (the inverse exponent applied into the
solver's output buffer in `mel_to_stft`) targets an address allocated by
the call itself, never a caller buffer. -/
theorem inverse_functions_pure :
    (∀ (rpow : ℝ → ℝ → ℝ) (mb : MelBasisCtor) (nn : NNLS) (st : Store) (rM : Nat)
      (sr : ℚ) (n_fft : Nat) (power : ℚ) (opts : MelOpts) (r : Nat), r < st.next →
      readAt (mel_to_stft_st rpow mb nn st rM sr n_fft power opts).1 r = readAt st r)
    ∧ (∀ (gl : GLArgs → List ℝ) (rpow : ℝ → ℝ → ℝ) (mb : MelBasisCtor) (nn : NNLS)
      (st : Store) (rM : Nat) (kw : MelAudioKwargs) (r : Nat), r < st.next →
      readAt (mel_to_audio_st gl rpow mb nn st rM kw).1 r = readAt st r)
    ∧ (∀ (core : IdctCore) (dbp : ℝ → ℝ → ℝ) (st : Store) (rC : Nat)
      (n_mels dct_type : Nat) (nrm : DctNorm) (ref : Ref) (r : Nat), r < st.next →
      readAt (mfcc_to_mel_st core dbp st rC n_mels dct_type nrm ref).1 r = readAt st r)
    ∧ (∀ (gl : GLArgs → List ℝ) (core : IdctCore) (dbp rpow : ℝ → ℝ → ℝ)
      (mb : MelBasisCtor) (nn : NNLS) (st : Store) (rC : Nat) (n_mels dct_type : Nat)
      (nrm : DctNorm) (ref : Ref) (kw : MelAudioKwargs) (r : Nat), r < st.next →
      readAt (mfcc_to_audio_st gl core dbp rpow mb nn st rC n_mels dct_type nrm ref kw).1 r
        = readAt st r)
    ∧ (∀ (rpow : ℝ → ℝ → ℝ) (mb : MelBasisCtor) (nn : NNLS) (st : Store) (rM : Nat)
      (sr : ℚ) (n_fft : Nat) (power : ℚ) (opts : MelOpts) (rS : Nat),
      (mel_to_stft_st rpow mb nn st rM sr n_fft power opts).2 = Except.ok rS →
      st.next ≤ rS) :=
  ⟨mel_to_stft_st_preserves, mel_to_audio_st_preserves, mfcc_to_mel_st_preserves,
   mfcc_to_audio_st_preserves, mel_to_stft_st_fresh⟩

/-- A concrete one-buffer heap holding `wMel43` at address 0. -/
def wStore : Store :=
  { mem := fun q => if q = 0 then some (Buf.mat wMel43) else none, next := 1 }

/-- C9 witness: on the concrete heap `wStore`, the caller's input buffer
at address 0 reads back unchanged after a concrete `mel_to_stft` call. -/
theorem inverse_functions_pure_witness :
    0 < wStore.next
    ∧ readAt (mel_to_stft_st Real.rpow constMelBasis zeroNNLS wStore 0 22050 2048 2
        melOptsDefault).1 0 = readAt wStore 0 :=
  ⟨Nat.zero_lt_one,
   inverse_functions_pure.1 Real.rpow constMelBasis zeroNNLS wStore 0 22050 2048 2
     melOptsDefault 0 Nat.zero_lt_one⟩
